import Mathlib

/-!
Verification of the configurable Prometheus exporter (configurable-exporter.py,
final version in the file: `run_script`, `add_instance_label`, `metrics`).

Python strings are modelled as `List Char`.  Whitespace, for the purposes of
`str.strip()` / `str.split(None, 1)` on single lines, is modelled as the space
and tab characters (lines produced by `str.splitlines()` contain no newline
characters, and metric text is ASCII).
-/

namespace ConfigurableExporter

/-- Python strings as lists of characters. -/
abbrev PyStr := List Char

/-- Convert a Lean string literal to the model type. -/
def str (s : String) : PyStr := s.data

/-- Whitespace as seen by `strip` / `split(None, ...)` inside a single line. -/
def isWS (c : Char) : Bool := c == ' ' || c == '\t'

/-- Helper for `pySplitlines`: prepend a character to the first line. -/
def consHead (c : Char) : List PyStr → List PyStr
  | [] => [[c]]
  | l :: ls => (c :: l) :: ls

/-- Python `str.splitlines()` restricted to the newline character:
`"" ↦ []`, `"a\n" ↦ ["a"]`, `"\n" ↦ [""]`, `"a\nb" ↦ ["a","b"]`. -/
def pySplitlines : PyStr → List PyStr
  | [] => []
  | c :: rest =>
    if c = '\n' then [] :: pySplitlines rest
    else consHead c (pySplitlines rest)

/-- Python `line.rstrip("\n")`. -/
def rstripNl (l : PyStr) : PyStr := (l.reverse.dropWhile (· == '\n')).reverse

/-- Python `line.strip()` (both-ends whitespace strip). -/
def pyStrip (l : PyStr) : PyStr := ((l.dropWhile isWS).reverse.dropWhile isWS).reverse

/-- Python `line.lstrip()`. -/
def pyLstrip (l : PyStr) : PyStr := l.dropWhile isWS

/-- The test `not line.strip() or line.lstrip().startswith("#")` from
`add_instance_label` (skip blank and comment lines). -/
def isBlankOrComment (line : PyStr) : Bool :=
  (pyStrip line).isEmpty || ((pyLstrip line).head? == some '#')

/-- Python `line.split(None, 1)`: discard leading whitespace, take the first
maximal non-whitespace token, discard the following whitespace run, and return
the remainder verbatim when it is non-empty. -/
def pySplitFirst (l : PyStr) : List PyStr :=
  let l1 := l.dropWhile isWS
  let tok := l1.takeWhile (fun c => !isWS c)
  let rest := (l1.dropWhile (fun c => !isWS c)).dropWhile isWS
  if tok.isEmpty then [] else if rest.isEmpty then [tok] else [tok, rest]

/-- Python `left.rfind(c)`: index of the last occurrence, if any. -/
def pyRfind (l : PyStr) (c : Char) : Option Nat :=
  match l with
  | [] => none
  | x :: xs =>
    match pyRfind xs c with
    | some j => some (j + 1)
    | none => if x = c then some 0 else none

/-- Python `left[pos - 1]` for `pos : Nat`: when `pos = 0` the index is `-1`,
which Python resolves to the last character of the (non-empty) string. -/
def pyPrevChar (left : PyStr) (pos : Nat) : Char :=
  if pos = 0 then left.getLastD ' ' else left.getD (pos - 1) ' '

/-- The literal label assignment text `instance_id="<iid>"`. -/
def instLabel (iid : PyStr) : PyStr := str "instance_id=\"" ++ iid ++ ['"']

/-- The left-side rewrite of `add_instance_label`: if the left side contains
both braces, splice the assignment in before the last right brace, with a comma
unless the preceding character is a left brace; otherwise append a fresh
brace-delimited block. -/
def buildNewLeft (iid left : PyStr) : PyStr :=
  if '\x7b' ∈ left ∧ '\x7d' ∈ left then
    let pos := (pyRfind left '\x7d').getD 0
    if pyPrevChar left pos ≠ '\x7b' then
      left.take pos ++ ',' :: instLabel iid ++ left.drop pos
    else
      left.take pos ++ instLabel iid ++ left.drop pos
  else
    left ++ '\x7b' :: instLabel iid ++ ['\x7d']

/-- The loop body of `add_instance_label` on one raw line. -/
def injectLine (iid rawLine : PyStr) : PyStr :=
  let line := rstripNl rawLine
  if isBlankOrComment line then line
  else
    match pySplitFirst line with
    | [left, right] => buildNewLeft iid left ++ ' ' :: right
    | _ => line

/-- Python `"\n".join(lines)`. -/
def joinLines : List PyStr → PyStr
  | [] => []
  | [l] => l
  | l :: l2 :: ls => l ++ '\n' :: joinLines (l2 :: ls)

/-- `add_instance_label(metrics_output, instance_id)`: `None` or an empty
string is falsy and returns the text unchanged; otherwise every line is
rewritten by `injectLine` and the lines are rejoined with newlines. -/
def add_instance_label (metrics_output : PyStr) (instance_id : Option PyStr) : PyStr :=
  let iid := instance_id.getD []
  if iid = [] then metrics_output
  else joinLines ((pySplitlines metrics_output).map (injectLine iid))

/-- Abstract outcome of `subprocess.run` inside `run_script`: the script file
is missing (raising `FileNotFoundError`), the process completes with an exit
status and captured output, the wait exceeds the timeout
(`subprocess.TimeoutExpired`), or some other exception is raised. -/
inductive RunOutcome where
  | fileMissing : RunOutcome
  | completed (returncode : Int) (stdout stderr : PyStr) : RunOutcome
  | timedOut : RunOutcome
  | raised (reason : PyStr) : RunOutcome

/-- `run_script(script_path, args, timeout)` as a function of the execution
outcome: all failure modes become textual sentinel lines, never exceptions.
`basename` models `os.path.basename(script_path)`; `args` only extends the
spawned command and does not influence the returned text. -/
def run_script (script_path basename : PyStr) (_args : List PyStr) (timeout : Nat)
    (outcome : RunOutcome) : PyStr :=
  match outcome with
  | .fileMissing =>
    str "# ERROR: Failed to run script " ++ basename ++ str ": Script not found: "
      ++ script_path ++ ['\n']
  | .completed rc out _err =>
    if rc ≠ 0 then str "# ERROR: Script " ++ basename ++ str " failed\n" else out
  | .timedOut =>
    str "# ERROR: Script " ++ basename ++ str " timed out after "
      ++ str (toString timeout) ++ str "s\n"
  | .raised reason =>
    str "# ERROR: Failed to run script " ++ basename ++ str ": " ++ reason ++ ['\n']

/-- A configuration scalar, as read for `max_workers`. -/
inductive ConfVal where
  | vint (n : Int) : ConfVal
  | vstr (s : PyStr) : ConfVal

/-- Decimal digit test. -/
def isDigit (c : Char) : Bool := '0' ≤ c && c ≤ '9'

/-- Value of a string of decimal digits. -/
def digitsToNat (l : PyStr) : Nat :=
  l.foldl (fun acc c => acc * 10 + (c.toNat - '0'.toNat)) 0

/-- Models the Python builtin `int()` on a string: whitespace is stripped, an
optional sign is followed by at least one decimal digit (digit-group
underscores are not modelled); anything else raises, modelled as `none`. -/
def parseIntChars (l : PyStr) : Option Int :=
  match pyStrip l with
  | '-' :: ds => if ds ≠ [] ∧ ds.all isDigit then some (-(digitsToNat ds : Int)) else none
  | '+' :: ds => if ds ≠ [] ∧ ds.all isDigit then some ((digitsToNat ds : Int)) else none
  | ds => if ds ≠ [] ∧ ds.all isDigit then some ((digitsToNat ds : Int)) else none

/-- Python `int(v)` on a configuration scalar. -/
def pyInt : ConfVal → Option Int
  | .vint n => some n
  | .vstr s => parseIntChars s

/-- The constant `MAX_WORKERS_CAP` from the source. -/
def MAX_WORKERS_CAP : Int := 10

/-- Resolution of the effective worker count in `metrics`:
`min(len(scripts) if scripts else 1, MAX_WORKERS_CAP)` when unconfigured,
otherwise `max(1, min(int(v), MAX_WORKERS_CAP))`, falling back to `1` when
`int(v)` raises. -/
def resolve_max_workers (configured : Option ConfVal) (numScripts : Nat) : Int :=
  match configured with
  | none => min (if numScripts = 0 then 1 else (numScripts : Int)) MAX_WORKERS_CAP
  | some v =>
    match pyInt v with
    | some n => max 1 (min n MAX_WORKERS_CAP)
    | none => 1

/-- The combining step of `metrics` (lines 307-309): sort the collected
`(position, text)` chunks by position — Python's stable sort, modelled by
insertion sort on the position key — and join the texts with newlines. -/
def aggregate_chunks (chunks : List (Nat × PyStr)) : PyStr :=
  joinLines ((List.insertionSort (fun a b => a.1 ≤ b.1) chunks).map Prod.snd)

/-! Basic facts about the modelled Python string operations. -/

theorem rstripNl_eq_self {l : PyStr} (h : '\n' ∉ l) : rstripNl l = l := by
  unfold rstripNl
  rw [List.dropWhile_eq_self_iff.mpr, List.reverse_reverse]
  intro hne
  simp only [beq_iff_eq]
  intro hc
  apply h
  have hm : l.reverse.get ⟨0, hne⟩ ∈ l.reverse := List.get_mem _ _ _
  rw [hc] at hm
  exact List.mem_reverse.mp hm

theorem pySplitlines_cons_newline (rest : PyStr) :
    pySplitlines ('\n' :: rest) = [] :: pySplitlines rest := by
  simp [pySplitlines]

theorem pySplitlines_cons_other {c : Char} (rest : PyStr) (h : c ≠ '\n') :
    pySplitlines (c :: rest) = consHead c (pySplitlines rest) := by
  simp [pySplitlines, h]

theorem consHead_ne_nil (c : Char) (ls : List PyStr) : consHead c ls ≠ [] := by
  cases ls <;> simp [consHead]

theorem pySplitlines_ne_nil {t : PyStr} (h : t ≠ []) : pySplitlines t ≠ [] := by
  cases t with
  | nil => exact absurd rfl h
  | cons c rest =>
    by_cases hc : c = '\n'
    · subst hc; rw [pySplitlines_cons_newline]; simp
    · rw [pySplitlines_cons_other _ hc]
      exact consHead_ne_nil c _

theorem pySplitlines_no_newline {t : PyStr} (h : '\n' ∉ t) (hne : t ≠ []) :
    pySplitlines t = [t] := by
  induction t with
  | nil => exact absurd rfl hne
  | cons c rest ih =>
    have hc : c ≠ '\n' := fun hc => h (hc ▸ List.mem_cons_self c rest)
    have hrest : '\n' ∉ rest := fun hr => h (List.mem_cons_of_mem c hr)
    rw [pySplitlines_cons_other _ hc]
    cases hr : rest with
    | nil => simp [pySplitlines, consHead]
    | cons d rs =>
      rw [← hr, ih hrest (by simp [hr])]
      simp [consHead]

theorem pySplitlines_append_newline {l : PyStr} (t : PyStr) (h : '\n' ∉ l) :
    pySplitlines (l ++ '\n' :: t) = l :: pySplitlines t := by
  induction l with
  | nil => simp [pySplitlines_cons_newline]
  | cons c cs ih =>
    have hc : c ≠ '\n' := fun hc => h (hc ▸ List.mem_cons_self c cs)
    have hcs : '\n' ∉ cs := fun hr => h (List.mem_cons_of_mem c hr)
    have hl : (c :: cs) ++ '\n' :: t = c :: (cs ++ '\n' :: t) := rfl
    rw [hl, pySplitlines_cons_other _ hc, ih hcs]
    simp [consHead]

theorem nonl_of_mem_pySplitlines {t l : PyStr} (hl : l ∈ pySplitlines t) : '\n' ∉ l := by
  induction t generalizing l with
  | nil => simp [pySplitlines] at hl
  | cons c rest ih =>
    by_cases hc : c = '\n'
    · subst hc
      rw [pySplitlines_cons_newline] at hl
      rcases List.mem_cons.mp hl with h | h
      · subst h; simp
      · exact ih h
    · rw [pySplitlines_cons_other _ hc] at hl
      cases hr : pySplitlines rest with
      | nil => rw [hr] at hl; simp [consHead] at hl; subst hl; simpa using Ne.symm hc
      | cons d ds =>
        rw [hr] at hl
        simp only [consHead] at hl
        rcases List.mem_cons.mp hl with h | h
        · subst h
          intro hmem
          rcases List.mem_cons.mp hmem with h' | h'
          · exact hc h'.symm
          · exact ih (hr ▸ List.mem_cons_self d ds) h'
        · exact ih (hr ▸ List.mem_cons_of_mem d h)

theorem joinLines_cons_cons (l l2 : PyStr) (ls : List PyStr) :
    joinLines (l :: l2 :: ls) = l ++ '\n' :: joinLines (l2 :: ls) := rfl

theorem pySplitlines_joinLines {ls : List PyStr} (h1 : ∀ l ∈ ls, '\n' ∉ l)
    (h2 : ls.getLast? ≠ some []) : pySplitlines (joinLines ls) = ls := by
  induction ls with
  | nil => rfl
  | cons l rest ih =>
    cases rest with
    | nil =>
      have hl : l ≠ [] := by
        intro he
        exact h2 (by simp [he])
      simpa [joinLines] using
        pySplitlines_no_newline (h1 l (by simp)) hl
    | cons l2 rs =>
      rw [joinLines_cons_cons,
        pySplitlines_append_newline _ (h1 l (by simp))]
      rw [ih (fun x hx => h1 x (List.mem_cons_of_mem l hx)) (by simpa using h2)]

theorem getLast?_pySplitlines_ne_nil {t : PyStr} (h : t.getLast? ≠ some '\n') :
    (pySplitlines t).getLast? ≠ some [] := by
  induction t with
  | nil => simp [pySplitlines]
  | cons c rest ih =>
    cases hr : rest with
    | nil =>
      have hc : c ≠ '\n' := by
        subst hr
        simpa using h
      subst hr
      rw [pySplitlines_cons_other _ hc]
      simp [pySplitlines, consHead]
    | cons d rs =>
      have hrest : rest.getLast? ≠ some '\n' := by
        subst hr
        rwa [List.getLast?_cons_cons] at h
      subst hr
      have ihh := ih hrest
      have hne : pySplitlines (d :: rs) ≠ [] := pySplitlines_ne_nil (by simp)
      by_cases hc : c = '\n'
      · subst hc
        rw [pySplitlines_cons_newline]
        cases hsp : pySplitlines (d :: rs) with
        | nil => exact absurd hsp hne
        | cons p ps =>
          rw [List.getLast?_cons_cons]
          rw [hsp] at ihh
          exact ihh
      · rw [pySplitlines_cons_other _ hc]
        cases hsp : pySplitlines (d :: rs) with
        | nil => exact absurd hsp hne
        | cons p ps =>
          rw [hsp] at ihh
          simp only [consHead]
          cases hps : ps with
          | nil =>
            subst hps
            simp only [List.getLast?_singleton] at ihh ⊢
            simp
          | cons q qs =>
            subst hps
            rw [List.getLast?_cons_cons] at ihh ⊢
            exact ihh

/-! Facts about `pySplitFirst`, `isBlankOrComment` and `injectLine`. -/

theorem mem_dropWhile_of_not {p : Char → Bool} {l : PyStr} {c : Char}
    (hc : c ∈ l) (h : p c = false) : c ∈ l.dropWhile p := by
  have hsplit := List.takeWhile_append_dropWhile p l
  rw [← hsplit] at hc
  rcases List.mem_append.mp hc with h1 | h1
  · exact absurd (List.mem_takeWhile_imp h1) (by simp [h])
  · exact h1

theorem pyStrip_ne_nil {l : PyStr} {c : Char} (hc : c ∈ l) (hw : isWS c = false) :
    pyStrip l ≠ [] := by
  unfold pyStrip
  intro h
  rw [List.reverse_eq_nil_iff, List.dropWhile_eq_nil_iff] at h
  have h1 : c ∈ l.dropWhile isWS := mem_dropWhile_of_not hc hw
  have h2 : c ∈ (l.dropWhile isWS).reverse := List.mem_reverse.mpr h1
  rw [h c h2] at hw
  exact absurd hw (by simp)

theorem dropWhile_eq_self_of_head {p : Char → Bool} {c : Char} (cs : PyStr)
    (h : p c = false) : (c :: cs).dropWhile p = c :: cs := by
  rw [List.dropWhile_cons, if_neg (by simp [h])]

theorem takeWhile_not_ws_append {m : PyStr} (v : PyStr) (hmw : ∀ c ∈ m, isWS c = false) :
    (m ++ ' ' :: v).takeWhile (fun c => !isWS c) = m := by
  induction m with
  | nil => simp [List.takeWhile_cons, isWS]
  | cons c cs ih =>
    have hc : isWS c = false := hmw c (by simp)
    rw [List.cons_append, List.takeWhile_cons, if_pos (by simp [hc])]
    rw [ih (fun x hx => hmw x (List.mem_cons_of_mem c hx))]

theorem dropWhile_not_ws_append {m : PyStr} (v : PyStr) (hmw : ∀ c ∈ m, isWS c = false) :
    (m ++ ' ' :: v).dropWhile (fun c => !isWS c) = ' ' :: v := by
  induction m with
  | nil => simp [List.dropWhile_cons, isWS]
  | cons c cs ih =>
    have hc : isWS c = false := hmw c (by simp)
    rw [List.cons_append, List.dropWhile_cons, if_pos (by simp [hc])]
    exact ih (fun x hx => hmw x (List.mem_cons_of_mem c hx))

theorem pySplitFirst_token {m v : PyStr} (hm : m ≠ []) (hmw : ∀ c ∈ m, isWS c = false)
    (hv : v ≠ []) (hvh : ∀ c ∈ v.take 1, isWS c = false) :
    pySplitFirst (m ++ ' ' :: v) = [m, v] := by
  obtain ⟨c, cs, rfl⟩ : ∃ c cs, m = c :: cs := by
    cases m with
    | nil => exact absurd rfl hm
    | cons c cs => exact ⟨c, cs, rfl⟩
  obtain ⟨d, ds, rfl⟩ : ∃ d ds, v = d :: ds := by
    cases v with
    | nil => exact absurd rfl hv
    | cons d ds => exact ⟨d, ds, rfl⟩
  have hc : isWS c = false := hmw c (by simp)
  have hd : isWS d = false := hvh d (by simp)
  simp only [pySplitFirst]
  rw [List.cons_append, dropWhile_eq_self_of_head _ hc, ← List.cons_append]
  rw [takeWhile_not_ws_append _ hmw, dropWhile_not_ws_append _ hmw]
  have hsp : isWS ' ' = true := by simp [isWS]
  rw [List.dropWhile_cons, if_pos hsp, dropWhile_eq_self_of_head _ hd]
  simp

theorem pyLstrip_token {m : PyStr} (v : PyStr) (hm : m ≠ [])
    (hmw : ∀ c ∈ m, isWS c = false) : pyLstrip (m ++ ' ' :: v) = m ++ ' ' :: v := by
  obtain ⟨c, cs, rfl⟩ : ∃ c cs, m = c :: cs := by
    cases m with
    | nil => exact absurd rfl hm
    | cons c cs => exact ⟨c, cs, rfl⟩
  have hc : isWS c = false := hmw c (by simp)
  unfold pyLstrip
  rw [List.cons_append, dropWhile_eq_self_of_head _ hc]

theorem isBlankOrComment_token_false {m : PyStr} (v : PyStr) (hm : m ≠ [])
    (hmw : ∀ c ∈ m, isWS c = false) (hmh : m.head? ≠ some '#') :
    isBlankOrComment (m ++ ' ' :: v) = false := by
  obtain ⟨c, cs, rfl⟩ : ∃ c cs, m = c :: cs := by
    cases m with
    | nil => exact absurd rfl hm
    | cons c cs => exact ⟨c, cs, rfl⟩
  have hc : isWS c = false := hmw c (by simp)
  have hstrip : pyStrip ((c :: cs) ++ ' ' :: v) ≠ [] :=
    pyStrip_ne_nil (by simp) hc
  have hhead : ((c :: cs) ++ ' ' :: v).head? = some c := by simp
  unfold isBlankOrComment
  rw [pyLstrip_token v hm hmw, hhead]
  simp only [Bool.or_eq_false_iff]
  constructor
  · simpa [List.isEmpty_iff] using hstrip
  · rw [beq_eq_false_iff_ne]
    intro hcc
    apply hmh
    rw [← hcc]
    simp

theorem injectLine_of_blankOrComment {iid raw : PyStr} (hn : '\n' ∉ raw)
    (h : isBlankOrComment raw = true) : injectLine iid raw = raw := by
  simp only [injectLine]
  rw [rstripNl_eq_self hn, if_pos h]

theorem injectLine_token {iid m v : PyStr} (hm : m ≠ []) (hmw : ∀ c ∈ m, isWS c = false)
    (hmn : '\n' ∉ m) (hmh : m.head? ≠ some '#')
    (hv : v ≠ []) (hvh : ∀ c ∈ v.take 1, isWS c = false) (hvn : '\n' ∉ v) :
    injectLine iid (m ++ ' ' :: v) = buildNewLeft iid m ++ ' ' :: v := by
  have hn : '\n' ∉ m ++ ' ' :: v := by
    intro hmem
    rcases List.mem_append.mp hmem with h1 | h1
    · exact hmn h1
    · rcases List.mem_cons.mp h1 with h2 | h2
      · exact absurd h2.symm (by simp)
      · exact hvn h2
  simp only [injectLine]
  rw [rstripNl_eq_self hn, if_neg (by rw [isBlankOrComment_token_false v hm hmw hmh]; simp)]
  rw [pySplitFirst_token hm hmw hv hvh]

/-! Facts about `pyRfind`, `pyPrevChar` and `buildNewLeft`. -/

theorem pyRfind_concat (xs : PyStr) (c : Char) : pyRfind (xs ++ [c]) c = some xs.length := by
  induction xs with
  | nil => simp [pyRfind]
  | cons x xs ih =>
    rw [List.cons_append]
    unfold pyRfind
    rw [ih]
    simp

theorem pyPrevChar_concat {ys : PyStr} (c : Char) (hys : ys ≠ []) :
    pyPrevChar (ys ++ [c]) ys.length = ys.getLastD ' ' := by
  induction ys with
  | nil => exact absurd rfl hys
  | cons a ys ih =>
    cases hy : ys with
    | nil =>
      subst hy
      simp [pyPrevChar, List.getD_cons_zero]
    | cons b ys' =>
      subst hy
      have hlen : (a :: b :: ys').length = (b :: ys').length + 1 := rfl
      unfold pyPrevChar
      rw [if_neg (by simp)]
      have harg : (a :: b :: ys').length - 1 = (b :: ys').length := by simp
      rw [harg]
      have hstep : ((a :: b :: ys') ++ [c]).getD (b :: ys').length ' '
          = ((b :: ys') ++ [c]).getD ((b :: ys').length - 1) ' ' := by
        simp only [List.cons_append, List.length_cons, List.getD_cons_succ,
          Nat.add_sub_cancel]
      rw [hstep]
      have ihh := ih (by simp)
      unfold pyPrevChar at ihh
      rw [if_neg (by simp)] at ihh
      rw [ihh]
      rw [List.getLastD_eq_getLast?, List.getLastD_eq_getLast?, List.getLast?_cons_cons]

theorem buildNewLeft_no_label_set {iid left : PyStr} (h : ¬('\x7b' ∈ left ∧ '\x7d' ∈ left)) :
    buildNewLeft iid left = left ++ '\x7b' :: instLabel iid ++ ['\x7d'] := by
  simp only [buildNewLeft]
  rw [if_neg h]

theorem getLastD_append_of_ne_nil {xs ys : PyStr} (d : Char) (h : ys ≠ []) :
    (xs ++ ys).getLastD d = ys.getLastD d := by
  rw [List.getLastD_eq_getLast?, List.getLastD_eq_getLast?,
    List.getLast?_append_of_ne_nil _ h]

theorem buildNewLeft_label_set {iid m i : PyStr} (hlast : i.getLastD '\x7b' ≠ '\x7b') :
    buildNewLeft iid (m ++ '\x7b' :: i ++ ['\x7d']) =
      (m ++ '\x7b' :: i) ++ ',' :: instLabel iid ++ ['\x7d'] := by
  have hi : i ≠ [] := by
    intro he
    subst he
    simp [List.getLastD] at hlast
  have hshape : m ++ '\x7b' :: i ++ ['\x7d'] = (m ++ '\x7b' :: i) ++ ['\x7d'] := by
    simp
  rw [hshape]
  have hmem : '\x7b' ∈ (m ++ '\x7b' :: i) ++ ['\x7d'] ∧ '\x7d' ∈ (m ++ '\x7b' :: i) ++ ['\x7d'] := by
    constructor <;> simp
  simp only [buildNewLeft]
  rw [if_pos hmem, pyRfind_concat]
  simp only [Option.getD_some]
  rw [pyPrevChar_concat _ (by simp)]
  have hprev : (m ++ '\x7b' :: i).getLastD ' ' ≠ '\x7b' := by
    rw [getLastD_append_of_ne_nil _ (by simp)]
    obtain ⟨y, ys, rfl⟩ : ∃ y ys, i = y :: ys := by
      cases i with
      | nil => exact absurd rfl hi
      | cons y ys => exact ⟨y, ys, rfl⟩
    rw [List.getLastD_eq_getLast?, List.getLast?_cons_cons]
    rw [List.getLastD_eq_getLast?] at hlast
    cases hz : (y :: ys).getLast? with
    | none => simp [List.getLast?_eq_none_iff] at hz
    | some z =>
      rw [hz] at hlast
      simpa using hlast
  rw [if_pos hprev, List.take_left, List.drop_left]

theorem buildNewLeft_empty_interior (iid m : PyStr) :
    buildNewLeft iid (m ++ ['\x7b', '\x7d']) = m ++ '\x7b' :: instLabel iid ++ ['\x7d'] := by
  have hshape : m ++ ['\x7b', '\x7d'] = (m ++ ['\x7b']) ++ ['\x7d'] := by simp
  rw [hshape]
  have hmem : '\x7b' ∈ (m ++ ['\x7b']) ++ ['\x7d'] ∧ '\x7d' ∈ (m ++ ['\x7b']) ++ ['\x7d'] := by
    constructor <;> simp
  simp only [buildNewLeft]
  rw [if_pos hmem, pyRfind_concat]
  simp only [Option.getD_some]
  rw [pyPrevChar_concat _ (by simp)]
  have hprev : ¬ (m ++ ['\x7b']).getLastD ' ' ≠ '\x7b' := by
    rw [List.getLastD_concat]
    simp
  rw [if_neg hprev, List.take_left, List.drop_left]
  simp

/-! Unchanged-line lemmas and structural preservation of `injectLine`. -/

theorem dropWhile_eq_self_of_all {p : Char → Bool} {l : PyStr}
    (h : ∀ c ∈ l, p c = false) : l.dropWhile p = l := by
  cases l with
  | nil => rfl
  | cons c cs => exact dropWhile_eq_self_of_head cs (h c (by simp))

theorem takeWhile_eq_self_of_all {p : Char → Bool} {l : PyStr}
    (h : ∀ c ∈ l, p c = true) : l.takeWhile p = l := by
  induction l with
  | nil => rfl
  | cons c cs ih =>
    rw [List.takeWhile_cons, if_pos (h c (by simp))]
    rw [ih (fun x hx => h x (List.mem_cons_of_mem c hx))]

theorem injectLine_of_no_ws {iid l : PyStr} (hws : ∀ c ∈ l, isWS c = false)
    (hn : '\n' ∉ l) : injectLine iid l = l := by
  by_cases hb : isBlankOrComment l = true
  · exact injectLine_of_blankOrComment hn hb
  · have hl : l ≠ [] := by
      intro he
      subst he
      simp [isBlankOrComment, pyStrip] at hb
    have htok : pySplitFirst l = [l] := by
      have hinner : l.dropWhile (fun c => !isWS c) = [] :=
        List.dropWhile_eq_nil_iff.mpr (fun c hc => by simp [hws c hc])
      simp only [pySplitFirst]
      rw [dropWhile_eq_self_of_all hws,
        takeWhile_eq_self_of_all (fun c hc => by simp [hws c hc]), hinner]
      simp [List.isEmpty_iff, hl]
    simp only [injectLine]
    rw [rstripNl_eq_self hn, if_neg hb, htok]

theorem add_instance_label_pos {text iid : PyStr} (hiid : iid ≠ []) :
    add_instance_label text (some iid) =
      joinLines ((pySplitlines text).map (injectLine iid)) := by
  simp only [add_instance_label, Option.getD_some]
  rw [if_neg hiid]

theorem add_instance_label_single_line {text iid : PyStr} (hn : '\n' ∉ text)
    (ht : text ≠ []) (hiid : iid ≠ []) :
    add_instance_label text (some iid) = injectLine iid text := by
  rw [add_instance_label_pos hiid, pySplitlines_no_newline hn ht]
  rfl

theorem mem_of_mem_pySplitFirst {l p : PyStr} (hp : p ∈ pySplitFirst l) {c : Char}
    (hc : c ∈ p) : c ∈ l := by
  have hsub1 : ∀ x ∈ (l.dropWhile isWS).takeWhile (fun c => !isWS c), x ∈ l := by
    intro x hx
    exact (List.dropWhile_sublist isWS).subset ((List.takeWhile_sublist _).subset hx)
  have hsub2 :
      ∀ x ∈ ((l.dropWhile isWS).dropWhile (fun c => !isWS c)).dropWhile isWS, x ∈ l := by
    intro x hx
    exact (List.dropWhile_sublist isWS).subset
      ((List.dropWhile_sublist _).subset ((List.dropWhile_sublist isWS).subset hx))
  simp only [pySplitFirst] at hp
  split_ifs at hp with h1 h2
  · simp at hp
  · rw [List.mem_singleton] at hp
    subst hp
    exact hsub1 c hc
  · rcases List.mem_cons.mp hp with h | h
    · subst h
      exact hsub1 c hc
    · rw [List.mem_singleton] at h
      subst h
      exact hsub2 c hc

theorem nonl_instLabel {iid : PyStr} (h : '\n' ∉ iid) : '\n' ∉ instLabel iid := by
  intro hmem
  unfold instLabel at hmem
  rcases List.mem_append.mp hmem with h1 | h1
  · rcases List.mem_append.mp h1 with h2 | h2
    · exact absurd h2 (by decide)
    · exact h h2
  · simp at h1

theorem nonl_buildNewLeft {iid left : PyStr} (h1 : '\n' ∉ left) (h2 : '\n' ∉ iid) :
    '\n' ∉ buildNewLeft iid left := by
  have hlab := nonl_instLabel h2
  have htake : '\n' ∉ left.take ((pyRfind left '\x7d').getD 0) :=
    fun hmem => h1 ((List.take_sublist _ _).subset hmem)
  have hdrop : '\n' ∉ left.drop ((pyRfind left '\x7d').getD 0) :=
    fun hmem => h1 ((List.drop_sublist _ _).subset hmem)
  simp only [buildNewLeft]
  split_ifs with hb hcomma
  · intro hmem
    rcases List.mem_append.mp hmem with h | h
    · rcases List.mem_append.mp h with h' | h'
      · exact htake h'
      · rcases List.mem_cons.mp h' with h'' | h''
        · simp at h''
        · exact hlab h''
    · exact hdrop h
  · intro hmem
    rcases List.mem_append.mp hmem with h | h
    · rcases List.mem_append.mp h with h' | h'
      · exact htake h'
      · exact hlab h'
    · exact hdrop h
  · intro hmem
    rcases List.mem_append.mp hmem with h | h
    · rcases List.mem_append.mp h with h' | h'
      · exact h1 h'
      · rcases List.mem_cons.mp h' with h'' | h''
        · simp at h''
        · exact hlab h''
    · simp at h

theorem nonl_injectLine {iid l : PyStr} (hl : '\n' ∉ l) (hiid : '\n' ∉ iid) :
    '\n' ∉ injectLine iid l := by
  simp only [injectLine]
  rw [rstripNl_eq_self hl]
  by_cases hb : isBlankOrComment l = true
  · rw [if_pos hb]
    exact hl
  · rw [if_neg hb]
    cases hsp : pySplitFirst l with
    | nil => exact hl
    | cons a t =>
      cases t with
      | nil => exact hl
      | cons b u =>
        cases u with
        | cons c2 w => exact hl
        | nil =>
          have hmemsp : a ∈ pySplitFirst l := by rw [hsp]; simp
          have hmemsp2 : b ∈ pySplitFirst l := by rw [hsp]; simp
          have ha : '\n' ∉ a := fun hmem => hl (mem_of_mem_pySplitFirst hmemsp hmem)
          have hbm : '\n' ∉ b := fun hmem => hl (mem_of_mem_pySplitFirst hmemsp2 hmem)
          intro hmem
          rcases List.mem_append.mp hmem with h | h
          · exact nonl_buildNewLeft ha hiid h
          · rcases List.mem_cons.mp h with h' | h'
            · simp at h'
            · exact hbm h'

theorem injectLine_ne_nil {iid l : PyStr} (hl : '\n' ∉ l) (hne : l ≠ []) :
    injectLine iid l ≠ [] := by
  simp only [injectLine]
  rw [rstripNl_eq_self hl]
  by_cases hb : isBlankOrComment l = true
  · rw [if_pos hb]
    exact hne
  · rw [if_neg hb]
    cases hsp : pySplitFirst l with
    | nil => exact hne
    | cons a t =>
      cases t with
      | nil => exact hne
      | cons b u =>
        cases u with
        | cons c2 w => exact hne
        | nil => simp

/-! End-to-end reductions of `add_instance_label` on single metric lines. -/

theorem mem_of_getLast?_eq {α : Type} {l : List α} {a : α} (h : l.getLast? = some a) : a ∈ l := by
  induction l with
  | nil => simp at h
  | cons x xs ih =>
    cases hx : xs with
    | nil =>
      subst hx
      simp only [List.getLast?_singleton, Option.some_inj] at h
      simp [h]
    | cons y ys =>
      subst hx
      rw [List.getLast?_cons_cons] at h
      exact List.mem_cons_of_mem x (ih h)

theorem instLabel_length (iid : PyStr) : (instLabel iid).length = iid.length + 14 := by
  show ((str "instance_id=\"" ++ iid) ++ ['"']).length = iid.length + 14
  simp only [List.length_append, List.length_singleton]
  have : (str "instance_id=\"").length = 13 := rfl
  omega

theorem add_inject_token {iid m v : PyStr} (hiid : iid ≠ []) (hm : m ≠ [])
    (hmw : ∀ c ∈ m, isWS c = false) (hmn : '\n' ∉ m) (hmh : m.head? ≠ some '#')
    (hv : v ≠ []) (hvh : ∀ c ∈ v.take 1, isWS c = false) (hvn : '\n' ∉ v) :
    add_instance_label (m ++ ' ' :: v) (some iid) = buildNewLeft iid m ++ ' ' :: v := by
  have hn : '\n' ∉ m ++ ' ' :: v := by
    intro hmem
    rcases List.mem_append.mp hmem with h1 | h1
    · exact hmn h1
    · rcases List.mem_cons.mp h1 with h2 | h2
      · exact absurd h2.symm (by simp)
      · exact hvn h2
  have hline : m ++ ' ' :: v ≠ [] := by simp
  rw [add_instance_label_single_line hn hline hiid]
  exact injectLine_token hm hmw hmn hmh hv hvh hvn

theorem add_inject_label_line {iid m i v : PyStr} (hiid : iid ≠ []) (hm : m ≠ [])
    (hmw : ∀ c ∈ m, isWS c = false) (hmn : '\n' ∉ m) (hmh : m.head? ≠ some '#')
    (hiw : ∀ c ∈ i, isWS c = false) (hinl : '\n' ∉ i)
    (hlast : i.getLastD '\x7b' ≠ '\x7b')
    (hv : v ≠ []) (hvh : ∀ c ∈ v.take 1, isWS c = false) (hvn : '\n' ∉ v) :
    add_instance_label ((m ++ '\x7b' :: i ++ ['\x7d']) ++ ' ' :: v) (some iid)
      = ((m ++ '\x7b' :: i) ++ ',' :: instLabel iid ++ ['\x7d']) ++ ' ' :: v := by
  have hT : m ++ '\x7b' :: i ++ ['\x7d'] ≠ [] := by simp
  have hTw : ∀ c ∈ m ++ '\x7b' :: i ++ ['\x7d'], isWS c = false := by
    intro c hc
    rcases List.mem_append.mp hc with h1 | h1
    · rcases List.mem_append.mp h1 with h2 | h2
      · exact hmw c h2
      · rcases List.mem_cons.mp h2 with h3 | h3
        · subst h3; rfl
        · exact hiw c h3
    · rcases List.mem_singleton.mp h1 with rfl
      rfl
  have hTn : '\n' ∉ m ++ '\x7b' :: i ++ ['\x7d'] := by
    intro hc
    rcases List.mem_append.mp hc with h1 | h1
    · rcases List.mem_append.mp h1 with h2 | h2
      · exact hmn h2
      · rcases List.mem_cons.mp h2 with h3 | h3
        · simp at h3
        · exact hinl h3
    · simp at h1
  have hTh : (m ++ '\x7b' :: i ++ ['\x7d']).head? ≠ some '#' := by
    rw [List.head?_append_of_ne_nil _ (by simp [hm]),
      List.head?_append_of_ne_nil _ hm]
    exact hmh
  rw [add_inject_token hiid hT hTw hTn hTh hv hvh hvn,
    buildNewLeft_label_set hlast]

theorem add_inject_bare_line {iid m v : PyStr} (hiid : iid ≠ []) (hm : m ≠ [])
    (hmw : ∀ c ∈ m, isWS c = false) (hmn : '\n' ∉ m) (hmh : m.head? ≠ some '#')
    (hnb : ¬('\x7b' ∈ m ∧ '\x7d' ∈ m))
    (hv : v ≠ []) (hvh : ∀ c ∈ v.take 1, isWS c = false) (hvn : '\n' ∉ v) :
    add_instance_label (m ++ ' ' :: v) (some iid)
      = (m ++ '\x7b' :: instLabel iid ++ ['\x7d']) ++ ' ' :: v := by
  rw [add_inject_token hiid hm hmw hmn hmh hv hvh hvn,
    buildNewLeft_no_label_set hnb]

/-! Claim theorems. -/

/-- Claim C10: an empty-string label value is falsy in `add_instance_label`,
exactly like an absent label: the text is returned unchanged, so no empty
`instance_id` assignment is ever inserted. -/
theorem C10_empty_label_value_noop (text : PyStr) :
    add_instance_label text (some []) = text ∧
    add_instance_label text (some []) = add_instance_label text none := by
  constructor <;> rfl

/-- Claim C2 (amended): a metric line containing no space or tab character at
all is passed through unchanged by `add_instance_label`; the split at the
first whitespace is not quote-aware, so this holds only for lines with no
whitespace anywhere, quoted or not. -/
theorem C2_no_separator_line_unchanged (text iid : PyStr)
    (hws : ∀ c ∈ text, isWS c = false) (hnl : '\n' ∉ text) :
    add_instance_label text (some iid) = text := by
  by_cases hiid : iid = []
  · subst hiid
    rfl
  · by_cases ht : text = []
    · subst ht
      rw [add_instance_label_pos hiid]
      rfl
    · rw [add_instance_label_single_line hnl ht hiid]
      exact injectLine_of_no_ws hws hnl

/-- Witness for C2 at the concrete line `up\x7bhost="db1"\x7d`. -/
theorem C2_no_separator_line_unchanged_witness :
    (∀ c ∈ str "up\x7bhost=\"db1\"\x7d", isWS c = false) ∧
    '\n' ∉ str "up\x7bhost=\"db1\"\x7d" ∧
    add_instance_label (str "up\x7bhost=\"db1\"\x7d") (some (str "x"))
      = str "up\x7bhost=\"db1\"\x7d" :=
  ⟨by decide, by decide,
    C2_no_separator_line_unchanged _ _ (by decide) (by decide)⟩

/-- Counterexample to C2 as stated: the line `up\x7bhost="db 1"\x7d` has a
space only inside double quotes, yet `add_instance_label` rewrites it (the
split at the first whitespace is not quote-aware). -/
theorem C2_quoted_space_counterexample :
    add_instance_label (str "up\x7bhost=\"db 1\"\x7d") (some (str "x"))
      ≠ str "up\x7bhost=\"db 1\"\x7d" := by decide

/-- Claim C4 (amended): a non-comment, non-blank metric line is split at its
first whitespace run (not quote-aware); when the left side lacks one of the
braces the rewrite wraps a fresh label block around the metric name, and when
the left side contains both braces the assignment is spliced in before the
final right brace, preceded by a comma exactly when the character before that
brace is not a left brace (i.e. the interior is non-empty) — even when the
interior already ends with a comma. -/
theorem C4_line_rewrite (m i v iid : PyStr)
    (hiid : iid ≠ [])
    (hm : m ≠ []) (hmw : ∀ c ∈ m, isWS c = false) (hmn : '\n' ∉ m)
    (hmh : m.head? ≠ some '#')
    (hiw : ∀ c ∈ i, isWS c = false) (hinl : '\n' ∉ i) (hib : '\x7b' ∉ i)
    (hv : v ≠ []) (hvh : ∀ c ∈ v.take 1, isWS c = false) (hvn : '\n' ∉ v) :
    (¬('\x7b' ∈ m ∧ '\x7d' ∈ m) →
      add_instance_label (m ++ ' ' :: v) (some iid)
        = (m ++ '\x7b' :: instLabel iid ++ ['\x7d']) ++ ' ' :: v)
    ∧ (i ≠ [] →
      add_instance_label ((m ++ '\x7b' :: i ++ ['\x7d']) ++ ' ' :: v) (some iid)
        = ((m ++ '\x7b' :: i) ++ ',' :: instLabel iid ++ ['\x7d']) ++ ' ' :: v)
    ∧ add_instance_label ((m ++ ['\x7b', '\x7d']) ++ ' ' :: v) (some iid)
        = (m ++ '\x7b' :: instLabel iid ++ ['\x7d']) ++ ' ' :: v := by
  refine ⟨fun hnb => add_inject_bare_line hiid hm hmw hmn hmh hnb hv hvh hvn,
    fun hi => ?_, ?_⟩
  · have hz : ∃ z, i.getLast? = some z := by
      cases hgi : i.getLast? with
      | none => exact absurd (List.getLast?_eq_none_iff.mp hgi) hi
      | some z => exact ⟨z, rfl⟩
    obtain ⟨z, hz⟩ := hz
    have hzi : z ∈ i := mem_of_getLast?_eq hz
    have hlast : i.getLastD '\x7b' ≠ '\x7b' := by
      rw [List.getLastD_eq_getLast?, hz]
      simp only [Option.getD_some]
      intro he
      exact hib (he ▸ hzi)
    exact add_inject_label_line hiid hm hmw hmn hmh hiw hinl hlast hv hvh hvn
  · have hT : m ++ ['\x7b', '\x7d'] ≠ [] := by simp
    have hTw : ∀ c ∈ m ++ ['\x7b', '\x7d'], isWS c = false := by
      intro c hc
      rcases List.mem_append.mp hc with h1 | h1
      · exact hmw c h1
      · rcases List.mem_cons.mp h1 with h2 | h2
        · subst h2; rfl
        · rcases List.mem_singleton.mp h2 with rfl; rfl
    have hTn : '\n' ∉ m ++ ['\x7b', '\x7d'] := by
      intro hc
      rcases List.mem_append.mp hc with h1 | h1
      · exact hmn h1
      · simp at h1
    have hTh : (m ++ ['\x7b', '\x7d']).head? ≠ some '#' := by
      rw [List.head?_append_of_ne_nil _ hm]
      exact hmh
    rw [add_inject_token hiid hT hTw hTn hTh hv hvh hvn,
      buildNewLeft_empty_interior]

/-- Witness for C4: the spec's two concrete examples, `foo 5` and
`foo\x7bbar="1"\x7d 5` with label value `x`. -/
theorem C4_line_rewrite_witness :
    add_instance_label (str "foo 5") (some (str "x"))
      = str "foo\x7binstance_id=\"x\"\x7d 5"
    ∧ add_instance_label (str "foo\x7bbar=\"1\"\x7d 5") (some (str "x"))
      = str "foo\x7bbar=\"1\",instance_id=\"x\"\x7d 5" := by
  have h := C4_line_rewrite (str "foo") (str "bar=\"1\"") (str "5") (str "x")
    (by decide) (by decide) (by decide) (by decide) (by decide) (by decide)
    (by decide) (by decide) (by decide) (by decide) (by decide)
  constructor
  · rw [(by decide : str "foo 5" = str "foo" ++ ' ' :: str "5"), h.1 (by decide)]
    decide
  · rw [(by decide : str "foo\x7bbar=\"1\"\x7d 5"
      = (str "foo" ++ '\x7b' :: str "bar=\"1\"" ++ ['\x7d']) ++ ' ' :: str "5"),
      h.2.1 (by decide)]
    decide

/-- Counterexample to C4 as stated: on `foo\x7bbar="1",\x7d 5` the interior
already ends with a comma, yet the code still inserts a separating comma,
producing a double comma instead of the claimed single one. -/
theorem C4_trailing_comma_counterexample :
    add_instance_label (str "foo\x7bbar=\"1\",\x7d 5") (some (str "x"))
      = str "foo\x7bbar=\"1\",,instance_id=\"x\"\x7d 5"
    ∧ add_instance_label (str "foo\x7bbar=\"1\",\x7d 5") (some (str "x"))
      ≠ str "foo\x7bbar=\"1\",instance_id=\"x\"\x7d 5" := by
  exact ⟨by decide, by decide⟩

/-- Claim C5 (amended): a left side with an opening brace but no closing brace
(an unterminated label set) is treated as having no label set at all: a fresh
`\x7binstance_id="..."\x7d` block is appended to it, so the line is rewritten,
not left unchanged. -/
theorem C5_unterminated_brace_rewritten (m v iid : PyStr)
    (hiid : iid ≠ []) (hm : m ≠ []) (hmw : ∀ c ∈ m, isWS c = false)
    (hmn : '\n' ∉ m) (hmh : m.head? ≠ some '#')
    (_hob : '\x7b' ∈ m) (hcb : '\x7d' ∉ m)
    (hv : v ≠ []) (hvh : ∀ c ∈ v.take 1, isWS c = false) (hvn : '\n' ∉ v) :
    add_instance_label (m ++ ' ' :: v) (some iid)
      = (m ++ '\x7b' :: instLabel iid ++ ['\x7d']) ++ ' ' :: v
    ∧ add_instance_label (m ++ ' ' :: v) (some iid) ≠ m ++ ' ' :: v := by
  have h1 := add_inject_bare_line hiid hm hmw hmn hmh (fun hc => hcb hc.2) hv hvh hvn
  refine ⟨h1, ?_⟩
  rw [h1]
  intro he
  have hlen := congrArg List.length he
  simp only [List.length_append, List.length_cons, List.length_singleton,
    instLabel_length] at hlen
  omega

/-- Witness for C5 at the concrete line `foo\x7bbar 5` with label value `x`. -/
theorem C5_unterminated_brace_rewritten_witness :
    add_instance_label (str "foo\x7bbar 5") (some (str "x"))
      = str "foo\x7bbar\x7binstance_id=\"x\"\x7d 5"
    ∧ add_instance_label (str "foo\x7bbar 5") (some (str "x")) ≠ str "foo\x7bbar 5" := by
  have h := C5_unterminated_brace_rewritten (str "foo\x7bbar") (str "5") (str "x")
    (by decide) (by decide) (by decide) (by decide) (by decide) (by decide)
    (by decide) (by decide) (by decide) (by decide)
  have he : str "foo\x7bbar 5" = str "foo\x7bbar" ++ ' ' :: str "5" := by decide
  constructor
  · rw [he, h.1]
    decide
  · rw [he]
    exact h.2

/-- Counterexample to C5 as stated: the malformed line `mx\x7by 7` (open brace
never closed) is not left unchanged. -/
theorem C5_counterexample :
    add_instance_label (str "mx\x7by 7") (some (str "id9")) ≠ str "mx\x7by 7" := by
  decide

/-- Claim C1 (amended): `add_instance_label` is not idempotent — it never
scans for an existing label key, so re-applying it to an already-injected bare
metric line splices a second, duplicate `instance_id` assignment in before the
final right brace instead of returning the line unchanged. -/
theorem C1_inject_not_idempotent (m v iid : PyStr)
    (hiid : iid ≠ []) (hiw : ∀ c ∈ iid, isWS c = false) (hin : '\n' ∉ iid)
    (hm : m ≠ []) (hmw : ∀ c ∈ m, isWS c = false) (hmn : '\n' ∉ m)
    (hmh : m.head? ≠ some '#') (hob : '\x7b' ∉ m) (_hcb : '\x7d' ∉ m)
    (hv : v ≠ []) (hvh : ∀ c ∈ v.take 1, isWS c = false) (hvn : '\n' ∉ v) :
    add_instance_label (m ++ ' ' :: v) (some iid)
      = (m ++ '\x7b' :: instLabel iid ++ ['\x7d']) ++ ' ' :: v
    ∧ add_instance_label (add_instance_label (m ++ ' ' :: v) (some iid)) (some iid)
      = ((m ++ '\x7b' :: instLabel iid) ++ ',' :: instLabel iid ++ ['\x7d']) ++ ' ' :: v
    ∧ add_instance_label (add_instance_label (m ++ ' ' :: v) (some iid)) (some iid)
      ≠ add_instance_label (m ++ ' ' :: v) (some iid) := by
  have h1 := add_inject_bare_line hiid hm hmw hmn hmh (fun hc => hob hc.1) hv hvh hvn
  have h2 : add_instance_label
      ((m ++ '\x7b' :: instLabel iid ++ ['\x7d']) ++ ' ' :: v) (some iid)
      = ((m ++ '\x7b' :: instLabel iid) ++ ',' :: instLabel iid ++ ['\x7d']) ++ ' ' :: v := by
    apply add_inject_label_line hiid hm hmw hmn hmh ?_ ?_ ?_ hv hvh hvn
    · intro c hc
      have hc' : c ∈ (str "instance_id=\"" ++ iid) ++ ['"'] := hc
      rcases List.mem_append.mp hc' with hA | hA
      · rcases List.mem_append.mp hA with hB | hB
        · revert hB
          have : ∀ x ∈ str "instance_id=\"", isWS x = false := by decide
          exact this c
        · exact hiw c hB
      · rcases List.mem_singleton.mp hA with rfl; rfl
    · exact nonl_instLabel hin
    · show ((str "instance_id=\"" ++ iid) ++ ['"']).getLastD '\x7b' ≠ '\x7b'
      rw [List.getLastD_concat]
      decide
  have h2' : add_instance_label
      (add_instance_label (m ++ ' ' :: v) (some iid)) (some iid)
      = ((m ++ '\x7b' :: instLabel iid) ++ ',' :: instLabel iid ++ ['\x7d']) ++ ' ' :: v := by
    rw [h1]
    exact h2
  refine ⟨h1, h2', ?_⟩
  intro he
  rw [h2', h1] at he
  have hlen := congrArg List.length he
  simp only [List.length_append, List.length_cons, List.length_singleton,
    instLabel_length] at hlen
  omega

/-- Witness for C1 at the bare metric line `foo 5` with label value `x`. -/
theorem C1_inject_not_idempotent_witness :
    add_instance_label
      (add_instance_label (str "foo" ++ ' ' :: str "5") (some (str "x"))) (some (str "x"))
      ≠ add_instance_label (str "foo" ++ ' ' :: str "5") (some (str "x")) :=
  (C1_inject_not_idempotent (str "foo") (str "5") (str "x")
    (by decide) (by decide) (by decide) (by decide) (by decide) (by decide)
    (by decide) (by decide) (by decide) (by decide) (by decide) (by decide)).2.2

/-- Counterexample to C1 as stated: double injection on `m 7` duplicates the
label, so `inject(inject(text, L), L) = inject(text, L)` fails. -/
theorem C1_counterexample :
    add_instance_label
      (add_instance_label (str "m 7") (some (str "id9"))) (some (str "id9"))
      ≠ add_instance_label (str "m 7") (some (str "id9")) := by
  decide

/-- Claim C7: comment and blank lines are never mutated: either the whole text
is returned unchanged (absent or empty label), or the output is the
newline-join of a list of lines of the same length in which every
blank-or-comment input line appears byte-identical at its original position. -/
theorem C7_comment_blank_lines_preserved (text : PyStr) (lab : Option PyStr) :
    add_instance_label text lab = text ∨
    ∃ out : List PyStr,
      add_instance_label text lab = joinLines out ∧
      out.length = (pySplitlines text).length ∧
      ∀ (i : Nat) (l : PyStr), (pySplitlines text)[i]? = some l →
        isBlankOrComment l = true → out[i]? = some l := by
  cases lab with
  | none => exact Or.inl rfl
  | some iid =>
    by_cases hiid : iid = []
    · subst hiid
      exact Or.inl rfl
    · right
      refine ⟨(pySplitlines text).map (injectLine iid),
        add_instance_label_pos hiid, by simp, ?_⟩
      intro i l hil hbc
      rw [List.getElem?_map, hil, Option.map_some']
      have hmem : l ∈ pySplitlines text := List.getElem?_mem hil
      rw [injectLine_of_blankOrComment (nonl_of_mem_pySplitlines hmem) hbc]

/-- Witness for C7 at the text `# h` + newline + `m 1` with label value `x`. -/
theorem C7_comment_blank_lines_preserved_witness :
    add_instance_label (str "# h\nm 1") (some (str "x")) = str "# h\nm 1" ∨
    ∃ out : List PyStr,
      add_instance_label (str "# h\nm 1") (some (str "x")) = joinLines out ∧
      out.length = (pySplitlines (str "# h\nm 1")).length ∧
      ∀ (i : Nat) (l : PyStr), (pySplitlines (str "# h\nm 1"))[i]? = some l →
        isBlankOrComment l = true → out[i]? = some l :=
  C7_comment_blank_lines_preserved (str "# h\nm 1") (some (str "x"))

/-- Claim C8 (amended): when the input text does not end with a newline and the
label value contains no newline, the output consists of exactly the input's
lines, each rewritten independently, in one-to-one order-preserving
correspondence (same line count).  The spec's trailing-newline equivalence is
dropped: the rebuild joins lines with single newlines, losing a trailing
newline of the input. -/
theorem C8_line_structure_preserved (text iid : PyStr)
    (hlast : text.getLast? ≠ some '\n') (hiid : iid ≠ []) (hin : '\n' ∉ iid) :
    pySplitlines (add_instance_label text (some iid))
      = (pySplitlines text).map (injectLine iid)
    ∧ (pySplitlines (add_instance_label text (some iid))).length
      = (pySplitlines text).length := by
  have hmain : pySplitlines (add_instance_label text (some iid))
      = (pySplitlines text).map (injectLine iid) := by
    rw [add_instance_label_pos hiid]
    apply pySplitlines_joinLines
    · intro l hl
      rcases List.mem_map.mp hl with ⟨l0, hl0, rfl⟩
      exact nonl_injectLine (nonl_of_mem_pySplitlines hl0) hin
    · rw [List.getLast?_map]
      cases hgl : (pySplitlines text).getLast? with
      | none => simp
      | some l0 =>
        simp only [Option.map_some']
        intro he
        have hne0 : l0 ≠ [] := by
          have hh := getLast?_pySplitlines_ne_nil hlast
          rw [hgl] at hh
          intro h0
          exact hh (by rw [h0])
        have hmem : l0 ∈ pySplitlines text := mem_of_getLast?_eq hgl
        exact injectLine_ne_nil (nonl_of_mem_pySplitlines hmem) hne0
          (Option.some.inj he)
  exact ⟨hmain, by rw [hmain]; simp⟩

/-- Witness for C8 at the two-line text `# a` + newline + `m 1`. -/
theorem C8_line_structure_preserved_witness :
    pySplitlines (add_instance_label (str "# a\nm 1") (some (str "x")))
      = (pySplitlines (str "# a\nm 1")).map (injectLine (str "x"))
    ∧ (pySplitlines (add_instance_label (str "# a\nm 1") (some (str "x")))).length
      = (pySplitlines (str "# a\nm 1")).length :=
  C8_line_structure_preserved _ _ (by decide) (by decide) (by decide)

/-- Counterexample to C8 as stated: the input `m 1` + newline ends with a
newline but the output does not — the trailing newline is dropped by the
join, refuting the claimed equivalence of trailing newlines. -/
theorem C8_trailing_newline_counterexample :
    (str "m 1\n").getLast? = some '\n'
    ∧ (add_instance_label (str "m 1\n") (some (str "x"))).getLast? ≠ some '\n' :=
  ⟨by decide, by decide⟩

/-- Claim C6: `run_script` converts every failure mode to sentinel text and
never raises: a non-zero exit yields exactly the single failure comment line,
independent of the captured stdout and stderr (both excluded from the returned
text); a timeout yields exactly the timeout sentinel with the resolved timeout
value; a missing file or any other execution error yields exactly the generic
failure sentinel carrying the reason. -/
theorem C6_run_script_sentinels (p b reason : PyStr) (args : List PyStr) (t : Nat)
    (rc : Int) (out err out2 err2 : PyStr) (hrc : rc ≠ 0) :
    run_script p b args t (.completed rc out err)
      = str "# ERROR: Script " ++ b ++ str " failed\n"
    ∧ run_script p b args t (.completed rc out err)
      = run_script p b args t (.completed rc out2 err2)
    ∧ run_script p b args t .timedOut
      = str "# ERROR: Script " ++ b ++ str " timed out after "
        ++ str (toString t) ++ str "s\n"
    ∧ run_script p b args t (.raised reason)
      = str "# ERROR: Failed to run script " ++ b ++ str ": " ++ reason ++ ['\n']
    ∧ run_script p b args t .fileMissing
      = str "# ERROR: Failed to run script " ++ b ++ str ": Script not found: "
        ++ p ++ ['\n'] := by
  refine ⟨?_, ?_, rfl, rfl, rfl⟩ <;> simp [run_script, hrc]

/-- Witness for C6 with basename `a.sh`, timeout 7, exit status 2. -/
theorem C6_run_script_sentinels_witness :
    run_script (str "/x/a.sh") (str "a.sh") [] 7 (.completed 2 (str "junk") (str "boom"))
      = str "# ERROR: Script a.sh failed\n"
    ∧ run_script (str "/x/a.sh") (str "a.sh") [] 7 (.completed 2 (str "junk") (str "boom"))
      = run_script (str "/x/a.sh") (str "a.sh") [] 7 (.completed 2 (str "other") (str "text"))
    ∧ run_script (str "/x/a.sh") (str "a.sh") [] 7 .timedOut
      = str "# ERROR: Script a.sh timed out after 7s\n" := by
  have h := C6_run_script_sentinels (str "/x/a.sh") (str "a.sh") (str "r") [] 7 2
    (str "junk") (str "boom") (str "other") (str "text") (by decide)
  exact ⟨by rw [h.1]; decide, h.2.1, by rw [h.2.2.1]; decide⟩

/-- Claim C9 (amended): an explicitly configured `max_workers` value converts
via `int()` and is clamped into `[1, 10]`; a conversion failure (such as
`"abc"`) yields effective concurrency 1; an unconfigured value defaults to
`min(len(scripts), 10)` when the script list is non-empty (hence at least 1),
and to 1 — not `min(0, 10) = 0` — when the list is empty. -/
theorem C9_max_workers_resolution (v : ConfVal) (n : Int) (k : Nat) :
    (pyInt v = some n →
      resolve_max_workers (some v) k = max 1 (min n MAX_WORKERS_CAP)
      ∧ 1 ≤ resolve_max_workers (some v) k
      ∧ resolve_max_workers (some v) k ≤ 10)
    ∧ (pyInt v = none → resolve_max_workers (some v) k = 1)
    ∧ pyInt (.vstr (str "abc")) = none
    ∧ (0 < k → resolve_max_workers none k = min (k : Int) 10
        ∧ 1 ≤ resolve_max_workers none k)
    ∧ resolve_max_workers none 0 = 1 := by
  refine ⟨fun hp => ?_, fun hp => ?_, by decide, fun hk => ?_, by decide⟩
  · have he : resolve_max_workers (some v) k = max 1 (min n MAX_WORKERS_CAP) := by
      simp [resolve_max_workers, hp]
    refine ⟨he, ?_, ?_⟩
    · rw [he]
      exact le_max_left 1 _
    · rw [he]
      have h10 : min n MAX_WORKERS_CAP ≤ 10 := min_le_right n MAX_WORKERS_CAP
      exact max_le (by norm_num) h10
  · simp [resolve_max_workers, hp]
  · have hk0 : k ≠ 0 := Nat.pos_iff_ne_zero.mp hk
    have he : resolve_max_workers none k = min (k : Int) 10 := by
      simp [resolve_max_workers, hk0, MAX_WORKERS_CAP]
    refine ⟨he, ?_⟩
    rw [he]
    have h1k : (1 : Int) ≤ (k : Int) := by exact_mod_cast hk
    exact le_min h1k (by norm_num)

/-- Witness for C9: configured `"7"`, `99`, `"abc"`, and unconfigured with 3
and 0 scripts. -/
theorem C9_max_workers_resolution_witness :
    resolve_max_workers (some (.vstr (str "7"))) 3 = 7
    ∧ resolve_max_workers (some (.vint 99)) 3 = 10
    ∧ resolve_max_workers (some (.vstr (str "abc"))) 3 = 1
    ∧ resolve_max_workers none 3 = 3
    ∧ resolve_max_workers none 0 = 1 := by
  have h7 := C9_max_workers_resolution (.vstr (str "7")) 7 3
  have h99 := C9_max_workers_resolution (.vint 99) 99 3
  refine ⟨?_, ?_, ?_, ?_, (C9_max_workers_resolution (.vint 0) 0 0).2.2.2.2⟩
  · rw [(h7.1 (by decide)).1]
    decide
  · rw [(h99.1 (by decide)).1]
    decide
  · exact (C9_max_workers_resolution (.vstr (str "abc")) 0 3).2.1 (by decide)
  · rw [(h7.2.2.2.1 (by decide)).1]
    decide

/-- Counterexample to C9 as stated: with no scripts configured the resolved
worker count is 1, not `min(0, 10) = 0` as the claimed default formula gives. -/
theorem C9_empty_scripts_counterexample :
    resolve_max_workers none 0 = 1 ∧ (1 : Int) ≠ min (0 : Int) 10 :=
  ⟨by decide, by decide⟩

theorem sorted_le_nodup_fst_lt {l : List (Nat × PyStr)}
    (hs : l.Pairwise (fun a b => a.1 ≤ b.1)) (hn : (l.map Prod.fst).Nodup) :
    l.Pairwise (fun a b => a.1 < b.1) := by
  induction l with
  | nil => exact List.Pairwise.nil
  | cons a t ih =>
    rcases List.pairwise_cons.mp hs with ⟨ha, ht⟩
    rw [List.map_cons] at hn
    rcases List.nodup_cons.mp hn with ⟨hna, hnt⟩
    refine List.pairwise_cons.mpr ⟨?_, ih ht hnt⟩
    intro b hb
    have h1 : a.1 ≤ b.1 := ha b hb
    have h2 : a.1 ≠ b.1 := fun he => hna (he ▸ List.mem_map_of_mem Prod.fst hb)
    exact lt_of_le_of_ne h1 h2

/-- Claim C3: the aggregation step restores configuration order: whatever
order the position-keyed chunks were collected in (any permutation of the
enumerated per-script result texts, as arises from completion-order
collection), the sort on position followed by the newline join yields exactly
the texts in original order joined with single newlines. -/
theorem C3_aggregate_order_independent (results : List PyStr)
    (chunks : List (Nat × PyStr)) (hperm : chunks.Perm results.enum) :
    aggregate_chunks chunks = joinLines results := by
  haveI : IsTotal (Nat × PyStr) (fun a b => a.1 ≤ b.1) :=
    ⟨fun a b => Nat.le_total a.1 b.1⟩
  haveI : IsTrans (Nat × PyStr) (fun a b => a.1 ≤ b.1) :=
    ⟨fun _ _ _ h1 h2 => le_trans h1 h2⟩
  haveI : IsAntisymm (Nat × PyStr) (fun a b => a.1 < b.1) :=
    ⟨fun _ _ h1 h2 => absurd h2 (Nat.lt_asymm h1)⟩
  have hperm2 :
      (List.insertionSort (fun a b : Nat × PyStr => a.1 ≤ b.1) chunks).Perm results.enum :=
    (List.perm_insertionSort _ chunks).trans hperm
  have hsorted1 :
      (List.insertionSort (fun a b : Nat × PyStr => a.1 ≤ b.1) chunks).Pairwise
        (fun a b => a.1 ≤ b.1) :=
    List.sorted_insertionSort _ chunks
  have hnodup :
      ((List.insertionSort (fun a b : Nat × PyStr => a.1 ≤ b.1) chunks).map
        Prod.fst).Nodup := by
    have h := hperm2.map Prod.fst
    rw [List.enum_map_fst] at h
    exact (List.nodup_range _).perm h.symm
  have hsortedlt :
      (List.insertionSort (fun a b : Nat × PyStr => a.1 ≤ b.1) chunks).Pairwise
        (fun a b => a.1 < b.1) :=
    sorted_le_nodup_fst_lt hsorted1 hnodup
  have henum : results.enum.Pairwise (fun a b : Nat × PyStr => a.1 < b.1) := by
    have h := List.pairwise_lt_range results.length
    rw [← List.enum_map_fst results] at h
    exact List.pairwise_map.mp h
  have heq : List.insertionSort (fun a b : Nat × PyStr => a.1 ≤ b.1) chunks
      = results.enum :=
    List.eq_of_perm_of_sorted hperm2 hsortedlt henum
  unfold aggregate_chunks
  rw [heq, List.enum_map_snd]

/-- Witness for C3: three chunks collected out of order sort back to the
original spec order. -/
theorem C3_aggregate_order_independent_witness :
    aggregate_chunks [(2, str "c 1"), (0, str "a 1"), (1, str "b 1")]
      = joinLines [str "a 1", str "b 1", str "c 1"] :=
  C3_aggregate_order_independent [str "a 1", str "b 1", str "c 1"]
    [(2, str "c 1"), (0, str "a 1"), (1, str "b 1")] (by decide)

end ConfigurableExporter
